import Mathlib

/-!
# detect-gha-jobs: a shallow embedding of `main.go`

The program reads GitHub Actions workflow files and prints, per file, the
workflow name and its jobs.  Everything the program obtains from outside
(command line, file system, the YAML decoder, the order in which the Go
runtime iterates a map) is collected in `World`; the three functions of
`main.go` (`processWorkflowFile`, `findWorkflowFiles`, `run`) are
translated statement by statement over an explicit pair of output streams.

Go values are represented as follows.
* `string` is `String`; an `error` is represented by its message.
* `*jobConfig` is `Option jobConfig`, `none` being the nil pointer.
* `map[string]*jobConfig` is the list of its entries; the order in which
  `range` visits them is chosen by the runtime (`World.mapRange`).
* A nil pointer dereference does not return: it is the result `fault`.
-/

set_option autoImplicit false
set_option maxRecDepth 8000

namespace DetectGhaJobs

/-! ## Data model (`main.go` lines 12-27) -/

/-- The configuration of a job.  Only `Name` is ever read by the program; the
fields `RunsOn`, `Environment`, `Steps`, `Needs` and `If` are decoded and
never inspected. -/
structure jobConfig where
  Name : String
  deriving DecidableEq, Repr

/-- The entire workflow.  `Jobs` lists the entries of the Go map
`map[string]*jobConfig` (in document order); an entry whose value is `none`
is a key mapped to the nil pointer.  The field `On` is decoded and never
inspected. -/
structure workflowFile where
  Name : String
  Jobs : List (String × Option jobConfig)
  deriving DecidableEq, Repr

/-! ## The outside world -/

deriving instance DecidableEq for Except

/-- Everything `main.go` obtains from the operating system and from the
libraries it calls.
* `Args` is `os.Args`.
* `IsAbs`, `Join` are `filepath.IsAbs`, `filepath.Join`.
* `Getwd`, `Stat`, `ReadFile` are the `os` calls; `Stat` answers `IsDir()`.
* `Walk root` is the sequence of calls `filepath.Walk root fn` makes to `fn`
  for as long as `fn` returns nil: the visited path and the error handed to
  the callback, if any.
* `Unmarshal` is `yaml.Unmarshal` into a `workflowFile`.
* `mapRange filePath entries` is the order in which the `range` loop run for
  `filePath` visits the entries of the map. -/
structure World where
  Args : List String
  IsAbs : String → Bool
  Join : String → String → String
  Getwd : Except String String
  Stat : String → Except String Bool
  Walk : String → List (String × Option String)
  ReadFile : String → Except String String
  Unmarshal : String → Except String workflowFile
  mapRange : String → List (String × Option jobConfig) → List (String × Option jobConfig)

/-- How a Go function call ended: it returned nil, it returned an error with
the given message, or it did not return because of a runtime fault (nil
pointer dereference). -/
inductive Result where
  | ok
  | err (msg : String)
  | fault
  deriving DecidableEq, Repr

/-- The text written so far to standard output and to standard error. -/
structure Streams where
  stdout : String
  stderr : String
  deriving DecidableEq, Repr

/-- Whether a result is a returned error. -/
def Result.isErr : Result → Bool
  | .err _ => true
  | _ => false

/-! ## Library functions of package `strings` -/

/-- Whether `sub` occurs in `s` as a contiguous block. -/
def containsChars (sub : List Char) : List Char → Bool
  | [] => sub.isEmpty
  | c :: cs => sub.isPrefixOf (c :: cs) || containsChars sub cs

/-- Go `strings.Contains`. -/
def Contains (s substr : String) : Bool :=
  containsChars substr.toList s.toList

/-- Go `strings.HasSuffix`. -/
def HasSuffix (s suffix : String) : Bool :=
  suffix.toList.isSuffixOf s.toList

/-! ## `processWorkflowFile` (`main.go` lines 29-53) -/

/-- The loop `for jobID, jobConfig := range workflow.Jobs` of
`processWorkflowFile`, over the entries in the order `range` visits them.
Reading `jobConfig.Name` through a nil pointer faults after the `Job ID:`
line has been written. -/
def printJobs : List (String × Option jobConfig) → Streams → Streams × Result
  | [], s => (s, Result.ok)
  | (jobID, jc) :: rest, s =>
    let s1 : Streams := { s with stdout := s.stdout ++ ("Job ID: " ++ jobID ++ "\n") }
    match jc with
    | none => (s1, Result.fault)
    | some c =>
      let s2 : Streams :=
        if c.Name ≠ "" then { s1 with stdout := s1.stdout ++ ("Job Name: " ++ c.Name ++ "\n") }
        else s1
      let s3 : Streams := { s2 with stdout := s2.stdout ++ "\n" }
      printJobs rest s3

/-- Go `processWorkflowFile`: processes a single workflow file. -/
def processWorkflowFile (w : World) (filePath : String) (s : Streams) : Streams × Result :=
  match w.ReadFile filePath with
  | .error e => (s, Result.err ("failed to read file: " ++ e))
  | .ok data =>
    match w.Unmarshal data with
    | .error e => (s, Result.err ("failed to parse YAML: " ++ e))
    | .ok workflow =>
      let s1 : Streams := { s with stdout := s.stdout ++ ("File: " ++ filePath ++ "\n") }
      let s2 : Streams := { s1 with stdout := s1.stdout ++ ("Workflow: " ++ workflow.Name ++ "\n") }
      printJobs (w.mapRange filePath workflow.Jobs) s2

/-! ## `findWorkflowFiles` (`main.go` lines 55-70) -/

/-- The test of the walk callback: the path contains `.github/workflows` and
ends in `.yml` or `.yaml`. -/
def isWorkflowPath (path : String) : Bool :=
  Contains path ".github/workflows" &&
    (HasSuffix path ".yml" || HasSuffix path ".yaml")

/-- The callback handed to `filepath.Walk`: it returns the error it is given,
and otherwise appends the path when it passes the test. -/
def walkFn (files : List String) (path : String) (err : Option String) :
    List String × Option String :=
  match err with
  | some e => (files, some e)
  | none => if isWorkflowPath path then (files ++ [path], none) else (files, none)

/-- Go `filepath.Walk` applied to the callback: the visits are made in order
and the first error returned by the callback ends the walk and is returned. -/
def walkLoop : List (String × Option String) → List String → List String × Option String
  | [], files => (files, none)
  | (path, err) :: rest, files =>
    match walkFn files path err with
    | (files1, some e) => (files1, some e)
    | (files1, none) => walkLoop rest files1

/-- Go `findWorkflowFiles`: returns the collected files together with the
error of the walk, if any. -/
def findWorkflowFiles (w : World) (dir : String) : List String × Option String :=
  walkLoop (w.Walk dir) []

/-! ## `run` (`main.go` lines 72-115) -/

/-- The separator line printed before each file in directory mode. -/
def separator : String := "----------------------------------------"

/-- The loop `for _, file := range files` of `run`: a returned error becomes
a warning on standard error and the loop continues; a fault ends the
program. -/
def processFiles (w : World) : List String → Streams → Streams × Result
  | [], s => (s, Result.ok)
  | file :: rest, s =>
    let s1 : Streams := { s with stdout := s.stdout ++ (separator ++ "\n") }
    match processWorkflowFile w file s1 with
    | (s2, Result.ok) => processFiles w rest s2
    | (s2, Result.err e) =>
      processFiles w rest
        { s2 with stderr := s2.stderr ++ ("warning: error processing " ++ file ++ ": " ++ e ++ "\n") }
    | (s2, Result.fault) => (s2, Result.fault)

/-- The path `run` works on, once the argument has been made absolute: the
error message when the working directory is needed and cannot be obtained. -/
def resolvePath (w : World) (arg : String) : Except String String :=
  if !w.IsAbs arg then
    match w.Getwd with
    | .error e => .error ("failed to get current directory: " ++ e)
    | .ok cwd => .ok (w.Join cwd arg)
  else .ok arg

/-- Go `run`, started with the given streams. -/
def run (w : World) (s : Streams) : Streams × Result :=
  if w.Args.length < 2 then
    (s, Result.err "usage: detect-gha-jobs <workflow-file-or-directory>")
  else
    match resolvePath w (w.Args.getD 1 "") with
    | .error msg => (s, Result.err msg)
    | .ok path =>
      match w.Stat path with
      | .error e => (s, Result.err ("failed to get path info: " ++ e))
      | .ok isDir =>
        if isDir then
          match findWorkflowFiles w path with
          | (_, some e) => (s, Result.err ("failed to search workflow files: " ++ e))
          | (files, none) =>
            if files.length = 0 then (s, Result.err "no workflow files found")
            else processFiles w files s
        else
          match processWorkflowFile w path s with
          | (s1, Result.err e) => (s1, Result.err e)
          | (s1, Result.ok) => (s1, Result.ok)
          | (s1, Result.fault) => (s1, Result.fault)

/-- The streams of a freshly started process. -/
def emptyStreams : Streams := { stdout := "", stderr := "" }

/-! ## Notions used to state the properties -/

/-- A path is a candidate: it contains `.github/workflows` as a contiguous
substring and ends in `.yml` or `.yaml`. -/
def IsCandidate (p : String) : Prop :=
  ".github/workflows".toList <:+: p.toList ∧
    (".yml".toList <:+ p.toList ∨ ".yaml".toList <:+ p.toList)

instance decIsCandidate : DecidablePred IsCandidate := fun p => by
  unfold IsCandidate
  exact inferInstance

/-- The paths a walk visits, in visit order. -/
def visitedPaths (w : World) (dir : String) : List String :=
  (w.Walk dir).map Prod.fst

/-- The file cannot be read, or its content fails to decode. -/
def FileFails (w : World) (p : String) : Prop :=
  (∃ e, w.ReadFile p = .error e) ∨
    (∃ data e, w.ReadFile p = .ok data ∧ w.Unmarshal data = .error e)

/-- The path `run` works on for argument `arg`: the argument itself when it is
absolute, and otherwise the working directory joined with it. -/
def Resolved (w : World) (arg path : String) : Prop :=
  (w.IsAbs arg = true ∧ path = arg) ∨
    (w.IsAbs arg = false ∧ ∃ cwd, w.Getwd = .ok cwd ∧ path = w.Join cwd arg)

/-- The conditions under which `run` is said to fail: no path argument; a
relative argument and no working directory; a resolved path that cannot be
stat'd; a directory whose walk meets an I/O error; a directory with no
candidate; a single file that cannot be read or decoded. -/
def RunErrorCondition (w : World) : Prop :=
  w.Args.length < 2 ∨
    (2 ≤ w.Args.length ∧
      ((w.IsAbs (w.Args.getD 1 "") = false ∧ ∃ e, w.Getwd = .error e) ∨
        ∃ path, Resolved w (w.Args.getD 1 "") path ∧
          ((∃ e, w.Stat path = .error e) ∨
            (w.Stat path = .ok true ∧ ∃ v ∈ w.Walk path, v.2 ≠ none) ∨
            (w.Stat path = .ok true ∧ ∀ p ∈ visitedPaths w path, ¬ IsCandidate p) ∨
            (w.Stat path = .ok false ∧ FileFails w path))))

/-- A job given by its key and its name, as an entry of the decoded map. -/
def namedEntry (kn : String × String) : String × Option jobConfig :=
  (kn.1, some { Name := kn.2 })

/-- The block of a job with key `k` and name `n` in the report: the line
`Job ID: k`, the line `Job Name: n` if and only if `n` is non-empty, and one
empty line. -/
def jobBlock (k n : String) : String :=
  "Job ID: " ++ k ++ "\n" ++ (if n = "" then "" else "Job Name: " ++ n ++ "\n") ++ "\n"

/-- The blocks of the jobs, in the order given. -/
def jobBlocks : List (String × String) → String
  | [] => ""
  | kn :: rest => jobBlock kn.1 kn.2 ++ jobBlocks rest

/-- The report of a file: the line `File: p`, the line `Workflow: name`, and
the blocks of the jobs. -/
def reportText (p name : String) (jobs : List (String × String)) : String :=
  "File: " ++ p ++ "\n" ++ ("Workflow: " ++ name ++ "\n") ++ jobBlocks jobs

/-- The number of lines of a text: the number of line breaks in it. -/
def lineCount (s : String) : Nat := s.toList.count '\n'

/-- The text contains no line break. -/
def SingleLine (s : String) : Prop := '\n' ∉ s.toList

instance decSingleLine : DecidablePred SingleLine := fun s => by
  unfold SingleLine
  exact inferInstance

/-- The number of jobs with an empty name. -/
def namelessCount (jobs : List (String × String)) : Nat :=
  (jobs.filter (fun kn => decide (kn.2 = ""))).length

/-- The exit status of the process for a result of `run` (`main`, `main.go`
lines 117-122): 0 when `run` returns nil, 1 when it returns an error; a Go
program that ends in an unrecovered runtime fault exits with status 2. -/
def exitStatus : Result → Nat
  | Result.ok => 0
  | Result.err _ => 1
  | Result.fault => 2

/-- The error of a file that cannot be read or decoded, read off the world:
`failed to read file: <e>` when reading fails with `<e>`,
`failed to parse YAML: <e>` when decoding fails with `<e>`, and none when
the file is read and decoded. -/
def failureCause (w : World) (p : String) : Option String :=
  match w.ReadFile p with
  | .error e => some ("failed to read file: " ++ e)
  | .ok data =>
    match w.Unmarshal data with
    | .error e => some ("failed to parse YAML: " ++ e)
    | .ok _ => none

instance decFileFails (w : World) (p : String) : Decidable (FileFails w p) :=
  decidable_of_iff ((failureCause w p).isSome = true) (by
    unfold failureCause FileFails
    cases hr : w.ReadFile p with
    | error e => simp
    | ok data =>
      cases hu : w.Unmarshal data with
      | error e => simp [hu]
      | ok wf => simp [hu])

/-- The warning expected for a candidate: for a file that cannot be read or
decoded the line `warning: error processing <path>: <cause>`, and nothing
for a file that is read and decoded. -/
def expectedWarning (w : World) (file : String) : String :=
  match failureCause w file with
  | some cause => "warning: error processing " ++ file ++ ": " ++ cause ++ "\n"
  | none => ""

/-- The warnings expected for the candidates, in the order given. -/
def expectedWarnings (w : World) : List String → String
  | [] => ""
  | file :: rest => expectedWarning w file ++ expectedWarnings w rest

/-- The candidates that cannot be read or decoded, in the order given. -/
def failingFiles (w : World) (files : List String) : List String :=
  files.filter (fun f => decide (FileFails w f))

/-! ## Example worlds -/

/-- The test `filepath.IsAbs` on a Unix system. -/
def unixIsAbs (p : String) : Bool := "/".toList.isPrefixOf p.toList

/-- The components of a path: the texts between its slashes. -/
def pathComponents : List Char → List (List Char)
  | [] => [[]]
  | c :: cs =>
    if c = '/' then [] :: pathComponents cs
    else
      match pathComponents cs with
      | [] => [[c]]
      | x :: xs => (c :: x) :: xs

/-- The elements `filepath.Clean` keeps, in order: empty elements and `.` are
dropped, `..` removes the element before it, is dropped at the root of a
rooted path, and is kept at the start of a relative path.  `acc` holds the
elements kept so far, last first. -/
def cleanElems (rooted : Bool) : List (List Char) → List (List Char) → List (List Char)
  | [], acc => acc.reverse
  | c :: cs, acc =>
    if c = [] ∨ c = ['.'] then cleanElems rooted cs acc
    else if c = ['.', '.'] then
      match acc with
      | [] => if rooted then cleanElems rooted cs [] else cleanElems rooted cs [c]
      | top :: below =>
        if top = ['.', '.'] then cleanElems rooted cs (c :: acc)
        else cleanElems rooted cs below
    else cleanElems rooted cs (c :: acc)

/-- Go `filepath.Clean` on a Unix system: the shortest path equivalent to the
given one by lexical processing; the empty result is `.`. -/
def unixClean (p : String) : String :=
  let rooted : Bool := "/".toList.isPrefixOf p.toList
  let body : List Char :=
    List.intercalate ['/'] (cleanElems rooted (pathComponents p.toList) [])
  let out : List Char := if rooted then '/' :: body else body
  if out = [] then "." else String.mk out

/-- Go `filepath.Join` of two elements on a Unix system: empty elements are
ignored, the others are joined by a slash and the result is cleaned. -/
def unixJoin (a b : String) : String :=
  if a ≠ "" then unixClean (a ++ "/" ++ b)
  else if b ≠ "" then unixClean b
  else ""

/-- A world whose directory `/r` holds two workflow files and, next to them,
a file with an upper-case extension and a text file. -/
def treeWorld : World where
  Args := ["detect-gha-jobs", "/r"]
  IsAbs := unixIsAbs
  Join := unixJoin
  Getwd := .ok "/"
  Stat := fun p => if p = "/r" then .ok true else .error "no such file or directory"
  Walk := fun _ =>
    [("/r", none), ("/r/.github", none), ("/r/.github/workflows", none),
     ("/r/.github/workflows/a.yml", none), ("/r/.github/workflows/b.yaml", none),
     ("/r/.github/workflows/c.YML", none), ("/r/notes.txt", none)]
  ReadFile := fun _ => .error "permission denied"
  Unmarshal := fun _ => .error "yaml: invalid"
  mapRange := fun _ es => es

/-- A world whose directory `/r` holds a workflow file, and in which the
walk fails on a later entry. -/
def walkErrorWorld : World where
  Args := ["detect-gha-jobs", "/r"]
  IsAbs := unixIsAbs
  Join := unixJoin
  Getwd := .ok "/"
  Stat := fun p => if p = "/r" then .ok true else .error "no such file or directory"
  Walk := fun _ =>
    [("/r", none), ("/r/.github", none), ("/r/.github/workflows", none),
     ("/r/.github/workflows/a.yml", none),
     ("/r/private", some "open /r/private: permission denied")]
  ReadFile := fun _ => .ok "name: A"
  Unmarshal := fun _ => .ok { Name := "A", Jobs := [] }
  mapRange := fun _ es => es

/-- A world with the single file `/r/ci.yml` whose workflow name spans two
lines (`name: "Nightly\nBuild"`) and which has no jobs. -/
def newlineNameWorld : World where
  Args := ["detect-gha-jobs", "/r/ci.yml"]
  IsAbs := unixIsAbs
  Join := unixJoin
  Getwd := .ok "/"
  Stat := fun p => if p = "/r/ci.yml" then .ok false else .error "no such file or directory"
  Walk := fun _ => []
  ReadFile := fun p =>
    if p = "/r/ci.yml" then .ok "name: \"Nightly\\nBuild\"\n"
    else .error "no such file or directory"
  Unmarshal := fun d =>
    if d = "name: \"Nightly\\nBuild\"\n" then .ok { Name := "Nightly\nBuild", Jobs := [] }
    else .error "yaml: invalid"
  mapRange := fun _ es => es

/-- The document of `TestParseWorkflowFile`: workflow `Test Workflow` with the
job `build` named `Build Job` and the job `test` without a name. -/
def testDocument : String :=
  "name: Test Workflow\njobs:\n  build:\n    name: Build Job\n    runs-on: ubuntu-latest\n" ++
  "    steps:\n      - uses: actions/checkout@v2\n  test:\n    runs-on: ubuntu-latest\n" ++
  "    steps:\n      - run: go test ./..."

/-- The value `testDocument` decodes to. -/
def testWorkflow : workflowFile :=
  { Name := "Test Workflow",
    Jobs := [("build", some { Name := "Build Job" }), ("test", some { Name := "" })] }

/-- A world with the single file `/tmp/workflow.yml` holding `testDocument`,
in which the map of jobs is iterated in the given order. -/
def testWorld (order : List (String × Option jobConfig) → List (String × Option jobConfig)) :
    World where
  Args := ["detect-gha-jobs", "/tmp/workflow.yml"]
  IsAbs := unixIsAbs
  Join := unixJoin
  Getwd := .ok "/"
  Stat := fun p =>
    if p = "/tmp/workflow.yml" then .ok false else .error "no such file or directory"
  Walk := fun _ => []
  ReadFile := fun p =>
    if p = "/tmp/workflow.yml" then .ok testDocument else .error "no such file or directory"
  Unmarshal := fun d => if d = testDocument then .ok testWorkflow else .error "yaml: invalid"
  mapRange := fun _ es => order es


/-- What `processWorkflowFile` writes to standard output for a file. -/
def fileOutput (w : World) (file : String) : String :=
  (processWorkflowFile w file emptyStreams).1.stdout

/-- How `processWorkflowFile` ends for a file. -/
def fileResult (w : World) (file : String) : Result :=
  (processWorkflowFile w file emptyStreams).2

/-- The warning for a file: the line
`warning: error processing <path>: <cause>` when `processWorkflowFile`
returns the error `<cause>` for it, and nothing otherwise. -/
def warningText (w : World) (file : String) : String :=
  match fileResult w file with
  | Result.err cause => "warning: error processing " ++ file ++ ": " ++ cause ++ "\n"
  | _ => ""

/-- The warnings of the files, in the order given. -/
def warnings (w : World) : List String → String
  | [] => ""
  | file :: rest => warningText w file ++ warnings w rest

/-- For each file in the order given: the separator line, then what
`processWorkflowFile` writes for the file. -/
def fileSections (w : World) : List String → String
  | [] => ""
  | file :: rest => separator ++ "\n" ++ fileOutput w file ++ fileSections w rest

/-- The number of files for which `processWorkflowFile` returns an error. -/
def failingCount (w : World) (files : List String) : Nat :=
  (files.filter (fun f => (fileResult w f).isErr)).length

/-- A world whose directory `/r` holds one workflow file, `name: [a, b]`,
which the decoder rejects with a message of two lines. -/
def typeErrorWorld : World where
  Args := ["detect-gha-jobs", "/r"]
  IsAbs := unixIsAbs
  Join := unixJoin
  Getwd := .ok "/"
  Stat := fun p => if p = "/r" then .ok true else .error "no such file or directory"
  Walk := fun _ =>
    [("/r", none), ("/r/.github", none), ("/r/.github/workflows", none),
     ("/r/.github/workflows/a.yml", none)]
  ReadFile := fun p =>
    if p = "/r/.github/workflows/a.yml" then .ok "name: [a, b]\n" else .error "is a directory"
  Unmarshal := fun _ =>
    .error "yaml: unmarshal errors:\n  line 1: cannot unmarshal !!seq into string"
  mapRange := fun _ es => es

/-- A world started in `/` with the relative argument `r`, whose directory
`/r` holds three workflow files: `a.yml` cannot be read, `b.yaml` is the
document of `TestParseWorkflowFile`, `c.yml` fails to decode. -/
def mixedWorld : World where
  Args := ["detect-gha-jobs", "r"]
  IsAbs := unixIsAbs
  Join := unixJoin
  Getwd := .ok "/"
  Stat := fun p => if p = "/r" then .ok true else .error "no such file or directory"
  Walk := fun _ =>
    [("/r", none), ("/r/.github", none), ("/r/.github/workflows", none),
     ("/r/.github/workflows/a.yml", none), ("/r/.github/workflows/b.yaml", none),
     ("/r/.github/workflows/c.yml", none)]
  ReadFile := fun p =>
    if p = "/r/.github/workflows/b.yaml" then .ok testDocument
    else if p = "/r/.github/workflows/c.yml" then .ok "jobs: ["
    else .error "open /r/.github/workflows/a.yml: permission denied"
  Unmarshal := fun d =>
    if d = testDocument then .ok testWorkflow
    else .error "yaml: line 1: did not find expected node content"
  mapRange := fun _ es => es


/-- Whether component `a` is immediately followed by component `b`. -/
def adjacentComponents (a b : List Char) : List (List Char) → Bool
  | x :: y :: rest => (x == a && y == b) || adjacentComponents a b (y :: rest)
  | _ => false

/-- The path has a component named exactly `.github` immediately followed by a
component named exactly `workflows`. -/
def InWorkflowsDirectory (p : String) : Prop :=
  adjacentComponents ".github".toList "workflows".toList (pathComponents p.toList) = true

instance decInWorkflowsDirectory : DecidablePred InWorkflowsDirectory := fun p => by
  unfold InWorkflowsDirectory
  exact inferInstance

/-- A world whose directory `/r` holds the single file
`/r/x.github/workflows-old/a.yml`. -/
def segmentWorld : World where
  Args := ["detect-gha-jobs", "/r"]
  IsAbs := unixIsAbs
  Join := unixJoin
  Getwd := .ok "/"
  Stat := fun p => if p = "/r" then .ok true else .error "no such file or directory"
  Walk := fun _ =>
    [("/r", none), ("/r/x.github", none), ("/r/x.github/workflows-old", none),
     ("/r/x.github/workflows-old/a.yml", none)]
  ReadFile := fun _ => .ok "name: Old"
  Unmarshal := fun _ => .ok { Name := "Old", Jobs := [] }
  mapRange := fun _ es => es

/-- A world with the single file `/r/ci.yml` whose only job, `build`, has an
empty body, so that the decoder maps the key to the nil pointer. -/
def nilJobWorld : World where
  Args := ["detect-gha-jobs", "/r/ci.yml"]
  IsAbs := unixIsAbs
  Join := unixJoin
  Getwd := .ok "/"
  Stat := fun p => if p = "/r/ci.yml" then .ok false else .error "no such file or directory"
  Walk := fun _ => []
  ReadFile := fun p =>
    if p = "/r/ci.yml" then .ok "jobs:\n  build:\n" else .error "no such file or directory"
  Unmarshal := fun d =>
    if d = "jobs:\n  build:\n" then .ok { Name := "", Jobs := [("build", none)] }
    else .error "yaml: invalid"
  mapRange := fun _ es => es

/-- A world with the single file `/r/ci.yml`: workflow `CI` with the job `lint`
named `Lint` and the job `build` with an empty body. -/
def nilSecondJobWorld : World where
  Args := ["detect-gha-jobs", "/r/ci.yml"]
  IsAbs := unixIsAbs
  Join := unixJoin
  Getwd := .ok "/"
  Stat := fun p => if p = "/r/ci.yml" then .ok false else .error "no such file or directory"
  Walk := fun _ => []
  ReadFile := fun p =>
    if p = "/r/ci.yml" then .ok "name: CI\njobs:\n  lint:\n    name: Lint\n  build:\n"
    else .error "no such file or directory"
  Unmarshal := fun d =>
    if d = "name: CI\njobs:\n  lint:\n    name: Lint\n  build:\n" then
      .ok { Name := "CI", Jobs := [("lint", some { Name := "Lint" }), ("build", none)] }
    else .error "yaml: invalid"
  mapRange := fun _ es => es

/-- A world whose directory `/r` holds two workflow files: `a.yml`, whose only
job has an empty body, and `b.yaml`, the document of `TestParseWorkflowFile`. -/
def nilJobDirWorld : World where
  Args := ["detect-gha-jobs", "/r"]
  IsAbs := unixIsAbs
  Join := unixJoin
  Getwd := .ok "/"
  Stat := fun p => if p = "/r" then .ok true else .error "no such file or directory"
  Walk := fun _ =>
    [("/r", none), ("/r/.github", none), ("/r/.github/workflows", none),
     ("/r/.github/workflows/a.yml", none), ("/r/.github/workflows/b.yaml", none)]
  ReadFile := fun p =>
    if p = "/r/.github/workflows/a.yml" then .ok "jobs:\n  build:\n"
    else if p = "/r/.github/workflows/b.yaml" then .ok testDocument
    else .error "is a directory"
  Unmarshal := fun d =>
    if d = "jobs:\n  build:\n" then .ok { Name := "", Jobs := [("build", none)] }
    else if d = testDocument then .ok testWorkflow
    else .error "yaml: invalid"
  mapRange := fun _ es => es


/-! ## Properties of the library functions -/

theorem containsChars_iff (sub s : List Char) :
    containsChars sub s = true ↔ sub <:+: s := by
  induction s with
  | nil => simp [containsChars, List.isEmpty_iff]
  | cons c cs ih =>
    simp only [containsChars, Bool.or_eq_true, List.isPrefixOf_iff_prefix, ih]
    exact (List.infix_cons_iff).symm

theorem isWorkflowPath_iff (p : String) : isWorkflowPath p = true ↔ IsCandidate p := by
  simp [isWorkflowPath, IsCandidate, Contains, HasSuffix, containsChars_iff]

/-! ## `findWorkflowFiles` -/

theorem walkLoop_noError (visits : List (String × Option String)) (files : List String)
    (h : ∀ v ∈ visits, v.2 = none) :
    walkLoop visits files = (files ++ (visits.map Prod.fst).filter isWorkflowPath, none) := by
  induction visits generalizing files with
  | nil => simp [walkLoop]
  | cons v rest ih =>
    obtain ⟨path, err⟩ := v
    have herr : err = none := h (path, err) (List.mem_cons_self _ _)
    have hrest : ∀ v ∈ rest, v.2 = none := fun v hv => h v (List.mem_cons_of_mem _ hv)
    subst herr
    by_cases hp : isWorkflowPath path = true
    · simp [walkLoop, walkFn, hp, ih _ hrest]
    · simp [walkLoop, walkFn, hp, ih _ hrest]

theorem isCandidate_a_yml (root : String) :
    IsCandidate (root ++ "/.github/workflows/a.yml") := by
  refine ⟨⟨(root ++ "/").toList, "/a.yml".toList, ?_⟩, Or.inl ?_⟩
  · simp [String.toList]
  · exact ⟨(root ++ "/.github/workflows/a").toList, by simp [String.toList]⟩

theorem isCandidate_b_yaml (root : String) :
    IsCandidate (root ++ "/.github/workflows/b.yaml") := by
  refine ⟨⟨(root ++ "/").toList, "/b.yaml".toList, ?_⟩, Or.inr ?_⟩
  · simp [String.toList]
  · exact ⟨(root ++ "/.github/workflows/b").toList, by simp [String.toList]⟩

theorem not_isCandidate_of_ext (q ext : String) (hlen : ext.toList.length = 4)
    (h1 : ".yml".toList ≠ ext.toList) (h2 : ¬ ext.toList <:+ ".yaml".toList) :
    ¬ IsCandidate (q ++ ext) := by
  have hs : ext.toList <:+ (q ++ ext).toList := ⟨q.toList, by simp [String.toList]⟩
  rintro ⟨-, h | h⟩
  · have h3 : ".yml".toList <:+ ext.toList :=
      List.suffix_of_suffix_length_le h hs (by rw [hlen]; decide)
    exact h1 (h3.eq_of_length (by rw [hlen]; decide))
  · exact h2 (List.suffix_of_suffix_length_le hs h (by rw [hlen]; decide))

/-- C2: when the walk of `dir` meets no I/O error, `findWorkflowFiles dir`
returns, without error, exactly the visited paths that contain
`.github/workflows` and end in `.yml` or `.yaml`, each as often as it is
visited and in visit order; for a tree whose only candidates are
`<root>/.github/workflows/a.yml` and `<root>/.github/workflows/b.yaml` it
returns exactly those two; a path ending in `.YML` or `.txt` is never
returned. -/
theorem findWorkflowFiles_exact (w : World) (dir : String)
    (hwalk : ∀ v ∈ w.Walk dir, v.2 = none) :
    findWorkflowFiles w dir =
        ((visitedPaths w dir).filter (fun p => decide (IsCandidate p)), none)
      ∧ (∀ root : String, ∀ pre mid post : List String,
          (∀ q ∈ pre ++ mid ++ post, ¬ IsCandidate q) →
          visitedPaths w dir =
            pre ++ (root ++ "/.github/workflows/a.yml") ::
              (mid ++ (root ++ "/.github/workflows/b.yaml") :: post) →
          (findWorkflowFiles w dir).1 =
            [root ++ "/.github/workflows/a.yml", root ++ "/.github/workflows/b.yaml"])
      ∧ (∀ q : String, q ++ ".YML" ∉ (findWorkflowFiles w dir).1 ∧
          q ++ ".txt" ∉ (findWorkflowFiles w dir).1) := by
  have hfilter : (fun p => decide (IsCandidate p)) = isWorkflowPath := by
    funext p
    rw [Bool.eq_iff_iff]
    simp [isWorkflowPath_iff]
  have hmain : findWorkflowFiles w dir =
      ((visitedPaths w dir).filter (fun p => decide (IsCandidate p)), none) := by
    rw [hfilter]
    simp [findWorkflowFiles, visitedPaths, walkLoop_noError _ _ hwalk]
  refine ⟨hmain, ?_, ?_⟩
  · intro root pre mid post hnone hvis
    have ha := isCandidate_a_yml root
    have hb := isCandidate_b_yaml root
    have hpre : pre.filter (fun p => decide (IsCandidate p)) = [] := by
      rw [List.filter_eq_nil_iff]
      intro q hq
      simpa using hnone q (by simp [hq])
    have hmid : mid.filter (fun p => decide (IsCandidate p)) = [] := by
      rw [List.filter_eq_nil_iff]
      intro q hq
      simpa using hnone q (by simp [hq])
    have hpost : post.filter (fun p => decide (IsCandidate p)) = [] := by
      rw [List.filter_eq_nil_iff]
      intro q hq
      simpa using hnone q (by simp [hq])
    rw [hmain, hvis]
    simp [List.filter_append, List.filter_cons, hpre, hmid, hpost, ha, hb]
  · intro q
    rw [hmain]
    constructor
    · intro hmem
      have := (List.mem_filter.mp hmem).2
      exact not_isCandidate_of_ext q ".YML" (by decide) (by decide) (by decide)
        (by simpa using this)
    · intro hmem
      have := (List.mem_filter.mp hmem).2
      exact not_isCandidate_of_ext q ".txt" (by decide) (by decide) (by decide)
        (by simpa using this)

/-- Witness for C2 on the tree of `treeWorld`. -/
theorem findWorkflowFiles_exact_witness :
    (∀ v ∈ treeWorld.Walk "/r", v.2 = none) ∧
      findWorkflowFiles treeWorld "/r" =
        (["/r/.github/workflows/a.yml", "/r/.github/workflows/b.yaml"], none) := by
  have hw : ∀ v ∈ treeWorld.Walk "/r", v.2 = none := by decide
  refine ⟨hw, ?_⟩
  rw [(findWorkflowFiles_exact treeWorld "/r" hw).1]
  decide

/-! ## `processWorkflowFile` and the loop of `run` -/

theorem printJobs_result (es : List (String × Option jobConfig)) (s : Streams) :
    (printJobs es s).2 = Result.ok ∨ (printJobs es s).2 = Result.fault := by
  induction es generalizing s with
  | nil => simp [printJobs]
  | cons e rest ih =>
    obtain ⟨k, jc⟩ := e
    cases jc with
    | none => simp [printJobs]
    | some c => simpa [printJobs] using ih _

theorem printJobs_stderr (es : List (String × Option jobConfig)) (s : Streams) :
    (printJobs es s).1.stderr = s.stderr := by
  induction es generalizing s with
  | nil => simp [printJobs]
  | cons e rest ih =>
    obtain ⟨k, jc⟩ := e
    cases jc with
    | none => simp [printJobs]
    | some c =>
      simp only [printJobs]
      rw [ih]
      split <;> rfl

theorem processWorkflowFile_err_iff (w : World) (p : String) (s : Streams) :
    (processWorkflowFile w p s).2.isErr = true ↔ FileFails w p := by
  unfold processWorkflowFile FileFails
  cases hr : w.ReadFile p with
  | error e => simp [Result.isErr]
  | ok data =>
    cases hu : w.Unmarshal data with
    | error e => simp [hu, Result.isErr]
    | ok wf =>
      rcases printJobs_result (w.mapRange p wf.Jobs)
          { stdout := s.stdout ++ ("File: " ++ p ++ "\n") ++ ("Workflow: " ++ wf.Name ++ "\n"),
            stderr := s.stderr } with h | h
      · simp [hu, h, Result.isErr]
      · simp [hu, h, Result.isErr]

theorem processWorkflowFile_err_streams (w : World) (p : String) (s : Streams)
    (h : (processWorkflowFile w p s).2.isErr = true) : (processWorkflowFile w p s).1 = s := by
  unfold processWorkflowFile at h ⊢
  cases hr : w.ReadFile p with
  | error e => simp
  | ok data =>
    cases hu : w.Unmarshal data with
    | error e => simp [hu]
    | ok wf =>
      simp only [hr, hu] at h
      rcases printJobs_result (w.mapRange p wf.Jobs)
          { stdout := s.stdout ++ ("File: " ++ p ++ "\n") ++ ("Workflow: " ++ wf.Name ++ "\n"),
            stderr := s.stderr } with h1 | h1
      · rw [h1] at h
        simp [Result.isErr] at h
      · rw [h1] at h
        simp [Result.isErr] at h

theorem processFiles_not_err (w : World) (files : List String) (s : Streams) :
    (processFiles w files s).2.isErr = false := by
  induction files generalizing s with
  | nil => simp [processFiles, Result.isErr]
  | cons f rest ih =>
    simp only [processFiles]
    cases h : processWorkflowFile w f
        { stdout := s.stdout ++ (separator ++ "\n"), stderr := s.stderr } with
    | mk s2 r =>
      cases r with
      | ok => simpa using ih _
      | err e => simpa using ih _
      | fault => simp [Result.isErr]

theorem processFiles_allFail (w : World) (files : List String) (s : Streams)
    (h : ∀ f ∈ files, FileFails w f) : (processFiles w files s).2 = Result.ok := by
  induction files generalizing s with
  | nil => simp [processFiles]
  | cons f rest ih =>
    have hrest : ∀ g ∈ rest, FileFails w g := fun g hg => h g (List.mem_cons_of_mem _ hg)
    have hf := (processWorkflowFile_err_iff w f
      { stdout := s.stdout ++ (separator ++ "\n"), stderr := s.stderr }).mpr
      (h f (List.mem_cons_self _ _))
    simp only [processFiles]
    cases hp : processWorkflowFile w f
        { stdout := s.stdout ++ (separator ++ "\n"), stderr := s.stderr } with
    | mk s2 r =>
      rw [hp] at hf
      cases r with
      | ok => simp [Result.isErr] at hf
      | err e => simpa using ih _ hrest
      | fault => simp [Result.isErr] at hf

theorem walkLoop_error_iff (visits : List (String × Option String)) (files : List String) :
    (walkLoop visits files).2 = none ↔ ∀ v ∈ visits, v.2 = none := by
  induction visits generalizing files with
  | nil => simp [walkLoop]
  | cons v rest ih =>
    obtain ⟨path, err⟩ := v
    cases err with
    | some e => simp [walkLoop, walkFn]
    | none =>
      by_cases hp : isWorkflowPath path = true
      · simp [walkLoop, walkFn, hp, ih]
      · simp [walkLoop, walkFn, hp, ih]

theorem printJobs_named (jobs : List (String × String)) (s : Streams) :
    printJobs (jobs.map namedEntry) s =
      ({ stdout := s.stdout ++ jobBlocks jobs, stderr := s.stderr }, Result.ok) := by
  induction jobs generalizing s with
  | nil => simp [printJobs, jobBlocks]
  | cons kn rest ih =>
    obtain ⟨k, n⟩ := kn
    simp only [List.map_cons, namedEntry, printJobs, ih, jobBlocks, jobBlock]
    by_cases hn : n = ""
    · simp [hn, String.append_assoc]
    · simp [hn, String.append_assoc]

theorem processWorkflowFile_named (w : World) (p : String) (s : Streams)
    (data : String) (wf : workflowFile) (jobs : List (String × String))
    (hr : w.ReadFile p = .ok data) (hu : w.Unmarshal data = .ok wf)
    (hjobs : w.mapRange p wf.Jobs = jobs.map namedEntry) :
    processWorkflowFile w p s =
      ({ stdout := s.stdout ++ reportText p wf.Name jobs, stderr := s.stderr }, Result.ok) := by
  unfold processWorkflowFile
  rw [hr]
  dsimp only
  rw [hu]
  dsimp only
  rw [hjobs, printJobs_named]
  simp [reportText, String.append_assoc]

theorem printJobs_nil_entry (pre : List (String × String)) (k : String)
    (rest : List (String × Option jobConfig)) (s : Streams) :
    printJobs (pre.map namedEntry ++ (k, none) :: rest) s =
      ({ stdout := s.stdout ++ jobBlocks pre ++ ("Job ID: " ++ k ++ "\n"),
         stderr := s.stderr }, Result.fault) := by
  induction pre generalizing s with
  | nil => simp [printJobs, jobBlocks]
  | cons kn tail ih =>
    obtain ⟨j, n⟩ := kn
    simp only [List.map_cons, List.cons_append, namedEntry, printJobs, jobBlocks, jobBlock]
    by_cases hn : n = ""
    · simp [hn, ih, String.append_assoc]
    · simp [hn, ih, String.append_assoc]

theorem processWorkflowFile_nil_entry (w : World) (p : String) (s : Streams)
    (data : String) (wf : workflowFile) (pre : List (String × String)) (k : String)
    (rest : List (String × Option jobConfig))
    (hr : w.ReadFile p = .ok data) (hu : w.Unmarshal data = .ok wf)
    (hjobs : w.mapRange p wf.Jobs = pre.map namedEntry ++ (k, none) :: rest) :
    processWorkflowFile w p s =
      ({ stdout := s.stdout ++ (reportText p wf.Name pre ++ ("Job ID: " ++ k ++ "\n")),
         stderr := s.stderr }, Result.fault) := by
  unfold processWorkflowFile
  rw [hr]
  dsimp only
  rw [hu]
  dsimp only
  rw [hjobs, printJobs_nil_entry]
  simp [reportText, String.append_assoc]

theorem lineCount_append (a b : String) : lineCount (a ++ b) = lineCount a + lineCount b := by
  simp [lineCount, String.toList]

theorem lineCount_singleLine (a : String) (h : SingleLine a) : lineCount a = 0 := by
  unfold lineCount
  exact List.count_eq_zero.mpr h

theorem lineCount_jobBlock (k n : String) (hk : SingleLine k) (hn : SingleLine n) :
    lineCount (jobBlock k n) = if n = "" then 2 else 3 := by
  unfold jobBlock
  have h1 : lineCount "Job ID: " = 0 := by decide
  have h2 : lineCount "\n" = 1 := by decide
  have h3 : lineCount "Job Name: " = 0 := by decide
  have h4 : lineCount "" = 0 := by decide
  by_cases he : n = ""
  · simp only [he, if_true, lineCount_append, h1, h2, h4, lineCount_singleLine k hk]
  · simp only [he, if_false, lineCount_append, h1, h2, h3, lineCount_singleLine k hk,
      lineCount_singleLine n hn]

theorem lineCount_jobBlocks (jobs : List (String × String))
    (h : ∀ kn ∈ jobs, SingleLine kn.1 ∧ SingleLine kn.2) :
    lineCount (jobBlocks jobs) + namelessCount jobs = 3 * jobs.length := by
  induction jobs with
  | nil => decide
  | cons kn rest ih =>
    obtain ⟨k, n⟩ := kn
    have hkn := h (k, n) (List.mem_cons_self _ _)
    have hrest := ih (fun x hx => h x (List.mem_cons_of_mem _ hx))
    have hb := lineCount_jobBlock k n hkn.1 hkn.2
    simp only [jobBlocks, lineCount_append, List.length_cons]
    unfold namelessCount at hrest ⊢
    by_cases he : n = ""
    · simp only [he, if_true] at hb
      simp only [List.filter_cons, he, decide_True, if_true, List.length_cons]
      subst he
      omega
    · simp only [he, if_false] at hb
      simp only [List.filter_cons, he, decide_False, Bool.false_eq_true, if_false]
      omega

theorem namelessCount_le (jobs : List (String × String)) :
    namelessCount jobs ≤ jobs.length :=
  List.length_filter_le _ _

theorem jobBlock_blank_last (k n : String) :
    "\n\n".toList <:+ (jobBlock k n).toList := by
  unfold jobBlock
  by_cases he : n = ""
  · refine ⟨("Job ID: " ++ k).toList, ?_⟩
    simp [he, String.toList]
  · refine ⟨("Job ID: " ++ k ++ "\n" ++ "Job Name: " ++ n).toList, ?_⟩
    simp [he, String.toList]

/-! ## `run` -/

theorem resolvePath_ok_iff (w : World) (arg path : String) :
    resolvePath w arg = .ok path ↔ Resolved w arg path := by
  unfold resolvePath Resolved
  cases habs : w.IsAbs arg with
  | true =>
    simp only [Bool.not_true, Bool.false_eq_true, if_false, Except.ok.injEq, true_and,
      reduceCtorEq, false_and, or_false]
    exact eq_comm
  | false =>
    cases hg : w.Getwd with
    | error e => simp
    | ok cwd =>
      simp only [Bool.not_false, if_true, Except.ok.injEq, Bool.false_eq_true, false_and,
        true_and, exists_eq_left', false_or]
      exact eq_comm

theorem resolvePath_error_iff (w : World) (arg : String) :
    (∃ msg, resolvePath w arg = .error msg) ↔
      (w.IsAbs arg = false ∧ ∃ e, w.Getwd = .error e) := by
  unfold resolvePath
  cases habs : w.IsAbs arg with
  | true => simp
  | false =>
    cases hg : w.Getwd with
    | error e => simp
    | ok cwd => simp

theorem run_resolved (w : World) (s : Streams) (path : String)
    (hargs : 2 ≤ w.Args.length) (hres : resolvePath w (w.Args.getD 1 "") = .ok path) :
    run w s =
      match w.Stat path with
      | .error e => (s, Result.err ("failed to get path info: " ++ e))
      | .ok isDir =>
        if isDir then
          match findWorkflowFiles w path with
          | (_, some e) => (s, Result.err ("failed to search workflow files: " ++ e))
          | (files, none) =>
            if files.length = 0 then (s, Result.err "no workflow files found")
            else processFiles w files s
        else processWorkflowFile w path s := by
  have hlt : ¬ w.Args.length < 2 := by omega
  unfold run
  rw [if_neg hlt, hres]
  dsimp only
  cases hst : w.Stat path with
  | error e => rfl
  | ok isDir =>
    cases isDir with
    | true => rfl
    | false =>
      simp only [Bool.false_eq_true, if_false]
      cases hp : processWorkflowFile w path s with
      | mk s1 r => cases r <;> rfl

theorem findWorkflowFiles_walked (w : World) (path : String)
    (hwalk : ∀ v ∈ w.Walk path, v.2 = none) :
    findWorkflowFiles w path = ((visitedPaths w path).filter isWorkflowPath, none) := by
  simp [findWorkflowFiles, visitedPaths, walkLoop_noError _ _ hwalk]

theorem run_dir (w : World) (s : Streams) (path : String)
    (hargs : 2 ≤ w.Args.length) (hres : resolvePath w (w.Args.getD 1 "") = .ok path)
    (hst : w.Stat path = .ok true) (hwalk : ∀ v ∈ w.Walk path, v.2 = none)
    (hne : (visitedPaths w path).filter isWorkflowPath ≠ []) :
    run w s = processFiles w ((visitedPaths w path).filter isWorkflowPath) s := by
  rw [run_resolved w s path hargs hres, hst, findWorkflowFiles_walked w path hwalk]
  have hlen : ¬ ((visitedPaths w path).filter isWorkflowPath).length = 0 := by
    rwa [List.length_eq_zero]
  simp only [if_true, if_neg hlen]

theorem run_dir_isErr_iff (w : World) (s : Streams) (path : String)
    (hargs : 2 ≤ w.Args.length) (hres : resolvePath w (w.Args.getD 1 "") = .ok path)
    (hst : w.Stat path = .ok true) :
    (run w s).2.isErr = true ↔
      ((∃ v ∈ w.Walk path, v.2 ≠ none) ∨ ∀ p ∈ visitedPaths w path, ¬ IsCandidate p) := by
  by_cases hwalk : ∀ v ∈ w.Walk path, v.2 = none
  · have hleft : ¬ ∃ v ∈ w.Walk path, v.2 ≠ none := by
      rintro ⟨v, hv, hne⟩
      exact hne (hwalk v hv)
    by_cases hnil : (visitedPaths w path).filter isWorkflowPath = []
    · have hnone : ∀ p ∈ visitedPaths w path, ¬ IsCandidate p := by
        intro p hp hc
        have := (List.filter_eq_nil_iff.mp hnil) p hp
        exact this ((isWorkflowPath_iff p).mpr hc)
      rw [run_resolved w s path hargs hres, hst, findWorkflowFiles_walked w path hwalk, hnil]
      exact ⟨fun _ => Or.inr hnone, fun _ => rfl⟩
    · rw [run_dir w s path hargs hres hst hwalk hnil, processFiles_not_err]
      have hsome : ¬ ∀ p ∈ visitedPaths w path, ¬ IsCandidate p := by
        intro hall
        apply hnil
        rw [List.filter_eq_nil_iff]
        intro p hp hc
        exact hall p hp ((isWorkflowPath_iff p).mp hc)
      simp [hleft, hsome]
  · have hleft : ∃ v ∈ w.Walk path, v.2 ≠ none := by
      push_neg at hwalk
      exact hwalk
    have herr : (findWorkflowFiles w path).2 ≠ none := by
      intro h
      exact hwalk ((walkLoop_error_iff _ _).mp h)
    rw [run_resolved w s path hargs hres, hst]
    cases hf : findWorkflowFiles w path with
    | mk files eo =>
      cases eo with
      | none => rw [hf] at herr; exact absurd rfl herr
      | some e => simp [Result.isErr, hleft]

theorem run_isErr_iff (w : World) (s : Streams) :
    (run w s).2.isErr = true ↔ RunErrorCondition w := by
  unfold RunErrorCondition
  by_cases hargs : w.Args.length < 2
  · have hrun : run w s =
        (s, Result.err "usage: detect-gha-jobs <workflow-file-or-directory>") := by
      simp [run, hargs]
    rw [hrun]
    exact ⟨fun _ => Or.inl hargs, fun _ => rfl⟩
  · have h2 : 2 ≤ w.Args.length := by omega
    cases hres : resolvePath w (w.Args.getD 1 "") with
    | error msg =>
      have hrun : run w s = (s, Result.err msg) := by
        unfold run
        rw [if_neg hargs, hres]
      have hcond := (resolvePath_error_iff w _).mp ⟨msg, hres⟩
      rw [hrun]
      exact ⟨fun _ => Or.inr ⟨h2, Or.inl hcond⟩, fun _ => rfl⟩
    | ok path =>
      have hR := (resolvePath_ok_iff w _ path).mp hres
      have hnoerr : ¬ (w.IsAbs (w.Args.getD 1 "") = false ∧ ∃ e, w.Getwd = .error e) := by
        intro h
        obtain ⟨msg, hm⟩ := (resolvePath_error_iff w _).mpr h
        rw [hres] at hm
        cases hm
      have huniq : ∀ q, Resolved w (w.Args.getD 1 "") q → q = path := by
        intro q hq
        have hq2 := (resolvePath_ok_iff w _ q).mpr hq
        rw [hres] at hq2
        injection hq2 with h
        exact h.symm
      have hrhs : (w.Args.length < 2 ∨
          (2 ≤ w.Args.length ∧
            ((w.IsAbs (w.Args.getD 1 "") = false ∧ ∃ e, w.Getwd = .error e) ∨
              ∃ path, Resolved w (w.Args.getD 1 "") path ∧
                ((∃ e, w.Stat path = .error e) ∨
                  (w.Stat path = .ok true ∧ ∃ v ∈ w.Walk path, v.2 ≠ none) ∨
                  (w.Stat path = .ok true ∧ ∀ p ∈ visitedPaths w path, ¬ IsCandidate p) ∨
                  (w.Stat path = .ok false ∧ FileFails w path))))) ↔
          ((∃ e, w.Stat path = .error e) ∨
            (w.Stat path = .ok true ∧ ∃ v ∈ w.Walk path, v.2 ≠ none) ∨
            (w.Stat path = .ok true ∧ ∀ p ∈ visitedPaths w path, ¬ IsCandidate p) ∨
            (w.Stat path = .ok false ∧ FileFails w path)) := by
        constructor
        · rintro (h | ⟨_, h | ⟨q, hq, h⟩⟩)
          · exact absurd h hargs
          · exact absurd h hnoerr
          · rw [huniq q hq] at h
            exact h
        · intro h
          exact Or.inr ⟨h2, Or.inr ⟨path, hR, h⟩⟩
      rw [hrhs]
      cases hst : w.Stat path with
      | error e =>
        rw [run_resolved w s path h2 hres, hst]
        simp [Result.isErr]
      | ok isDir =>
        cases isDir with
        | true =>
          rw [run_dir_isErr_iff w s path h2 hres hst]
          simp
        | false =>
          rw [run_resolved w s path h2 hres, hst]
          simp [processWorkflowFile_err_iff]

theorem run_err_streams (w : World) (s : Streams) (h : (run w s).2.isErr = true) :
    (run w s).1 = s := by
  by_cases hargs : w.Args.length < 2
  · simp [run, hargs]
  · have h2 : 2 ≤ w.Args.length := by omega
    cases hres : resolvePath w (w.Args.getD 1 "") with
    | error msg =>
      unfold run
      rw [if_neg hargs, hres]
    | ok path =>
      rw [run_resolved w s path h2 hres] at h ⊢
      cases hst : w.Stat path with
      | error e => rfl
      | ok isDir =>
        rw [hst] at h
        cases isDir with
        | false =>
          simp only [Bool.false_eq_true, if_false] at h ⊢
          exact processWorkflowFile_err_streams w path s h
        | true =>
          simp only [if_true] at h ⊢
          cases hf : findWorkflowFiles w path with
          | mk files eo =>
            rw [hf] at h
            cases eo with
            | some e => rfl
            | none =>
              by_cases hlen : files.length = 0
              · simp [hlen]
              · simp only [if_neg hlen] at h
                rw [processFiles_not_err] at h
                cases h

/-- The error returns of `run`: it returns an error exactly when no path
argument is given, or the argument is relative and the working directory
cannot be obtained, or the resolved path cannot be stat'd, or the path is a
directory whose walk meets an I/O error, or the path is a directory without
any candidate, or the path is a single file that cannot be read or decoded;
in directory mode with a completed walk and at least one candidate it
returns no error, and it returns nil when every candidate fails to read or
decode. -/
theorem run_error_iff (w : World) (s : Streams) :
    ((run w s).2.isErr = true ↔ RunErrorCondition w) ∧
      (∀ path : String, 2 ≤ w.Args.length → Resolved w (w.Args.getD 1 "") path →
        w.Stat path = .ok true → (∀ v ∈ w.Walk path, v.2 = none) →
        (∃ p ∈ visitedPaths w path, IsCandidate p) →
        (run w s).2.isErr = false ∧
          ((∀ p ∈ visitedPaths w path, IsCandidate p → FileFails w p) →
            (run w s).2 = Result.ok)) := by
  refine ⟨run_isErr_iff w s, ?_⟩
  intro path hargs hR hst hwalk hsome
  have hres := (resolvePath_ok_iff w _ path).mpr hR
  have hne : (visitedPaths w path).filter isWorkflowPath ≠ [] := by
    obtain ⟨p, hp, hc⟩ := hsome
    intro hnil
    exact (List.filter_eq_nil_iff.mp hnil) p hp ((isWorkflowPath_iff p).mpr hc)
  rw [run_dir w s path hargs hres hst hwalk hne]
  refine ⟨processFiles_not_err w _ s, fun hfail => ?_⟩
  apply processFiles_allFail
  intro f hf
  obtain ⟨hf1, hf2⟩ := List.mem_filter.mp hf
  exact hfail f hf1 ((isWorkflowPath_iff f).mp hf2)

/-- In `treeWorld` both candidates are unreadable, and `run` returns nil. -/
theorem run_error_iff_treeWorld :
    (run treeWorld emptyStreams).2 = Result.ok ∧ ¬ RunErrorCondition treeWorld := by
  refine ⟨((run_error_iff treeWorld emptyStreams).2 "/r" (by decide)
    (Or.inl ⟨by decide, rfl⟩) rfl (by decide)
    ⟨"/r/.github/workflows/a.yml", by decide, by decide⟩).2
    (fun p _ _ => Or.inl ⟨"permission denied", rfl⟩), ?_⟩
  intro h
  have herr := (run_error_iff treeWorld emptyStreams).1.mpr h
  revert herr
  decide

/-- C5: whenever `run` returns an error, it has written nothing to standard
output (nor to standard error); this holds in each of the listed cases (a
path that cannot be stat'd, a directory without candidates, a walk that
fails even after candidates were collected, a single file that cannot be
read or decoded). -/
theorem run_error_no_stdout (w : World) (s : Streams)
    (h : (run w s).2.isErr = true ∨ RunErrorCondition w) :
    (run w s).1.stdout = s.stdout ∧ (run w s).1.stderr = s.stderr := by
  have herr : (run w s).2.isErr = true := by
    rcases h with h | h
    · exact h
    · exact (run_isErr_iff w s).mpr h
  rw [run_err_streams w s herr]
  exact ⟨rfl, rfl⟩

/-- Witness for C5: in `walkErrorWorld` a candidate has been collected when the
walk fails; `run` returns the error and standard output stays empty. -/
theorem run_error_no_stdout_witness :
    (run walkErrorWorld emptyStreams).2 =
        Result.err "failed to search workflow files: open /r/private: permission denied" ∧
      (findWorkflowFiles walkErrorWorld "/r").1 = ["/r/.github/workflows/a.yml"] ∧
      (run walkErrorWorld emptyStreams).1.stdout = "" :=
  ⟨by decide, by decide,
    (run_error_no_stdout walkErrorWorld emptyStreams (Or.inl (by decide))).1⟩

/-- C7 (amended): for a file that is read and decoded, whose jobs all have a
body, and where neither the path, the workflow name, nor any job key or job
name contains a line break, `processWorkflowFile` returns nil and writes
exactly `2 + 3N - m` lines for `N` jobs of which `m` have an empty name:
`2 + 3N` when every job has a name, `2` when there is no job; and every job
block ends in an empty line. -/
theorem report_lineCount (w : World) (p : String) (s : Streams)
    (data : String) (wf : workflowFile) (jobs : List (String × String))
    (hr : w.ReadFile p = .ok data) (hu : w.Unmarshal data = .ok wf)
    (hjobs : w.mapRange p wf.Jobs = jobs.map namedEntry)
    (hp : SingleLine p) (hw : SingleLine wf.Name)
    (hj : ∀ kn ∈ jobs, SingleLine kn.1 ∧ SingleLine kn.2) :
    (processWorkflowFile w p s).2 = Result.ok ∧
      (processWorkflowFile w p s).1.stdout = s.stdout ++ reportText p wf.Name jobs ∧
      lineCount (reportText p wf.Name jobs) = 2 + 3 * jobs.length - namelessCount jobs ∧
      (namelessCount jobs = 0 → lineCount (reportText p wf.Name jobs) = 2 + 3 * jobs.length) ∧
      (jobs = [] → lineCount (reportText p wf.Name jobs) = 2) ∧
      (∀ kn ∈ jobs, "\n\n".toList <:+ (jobBlock kn.1 kn.2).toList) := by
  have hrun := processWorkflowFile_named w p s data wf jobs hr hu hjobs
  have hblocks := lineCount_jobBlocks jobs hj
  have hle := namelessCount_le jobs
  have h1 : lineCount "File: " = 0 := by decide
  have h2 : lineCount "\n" = 1 := by decide
  have h3 : lineCount "Workflow: " = 0 := by decide
  have hcount : lineCount (reportText p wf.Name jobs) = 2 + lineCount (jobBlocks jobs) := by
    simp only [reportText, lineCount_append, h1, h2, h3, lineCount_singleLine p hp,
      lineCount_singleLine wf.Name hw]
  refine ⟨by rw [hrun], by rw [hrun], by omega, fun h0 => by omega, fun hnil => ?_,
    fun kn _ => jobBlock_blank_last kn.1 kn.2⟩
  subst hnil
  simp only [List.length_nil] at hblocks
  omega

/-- Witness for C7 (amended): the document of `TestParseWorkflowFile`, two jobs
of which one has no name, is reported in seven lines. -/
theorem report_lineCount_witness :
    (processWorkflowFile (testWorld id) "/tmp/workflow.yml" emptyStreams).1.stdout =
        "File: /tmp/workflow.yml\nWorkflow: Test Workflow\n" ++
        "Job ID: build\nJob Name: Build Job\n\nJob ID: test\n\n" ∧
      lineCount (reportText "/tmp/workflow.yml" "Test Workflow"
        [("build", "Build Job"), ("test", "")]) = 7 := by
  have h := report_lineCount (testWorld id) "/tmp/workflow.yml" emptyStreams testDocument
    testWorkflow [("build", "Build Job"), ("test", "")] (by decide) (by decide) (by decide)
    (by decide) (by decide) (by decide)
  exact ⟨by rw [h.2.1]; decide, by rw [show "Test Workflow" = testWorkflow.Name from rfl, h.2.2.1]; decide⟩

/-- C7 fails as stated: the file of `newlineNameWorld` is read and decoded, it
has no job, and its report has three lines, not two. -/
theorem report_lineCount_counterexample :
    newlineNameWorld.ReadFile "/r/ci.yml" = .ok "name: \"Nightly\\nBuild\"\n" ∧
      newlineNameWorld.Unmarshal "name: \"Nightly\\nBuild\"\n" =
        .ok { Name := "Nightly\nBuild", Jobs := [] } ∧
      processWorkflowFile newlineNameWorld "/r/ci.yml" emptyStreams =
        ({ stdout := "File: /r/ci.yml\nWorkflow: Nightly\nBuild\n", stderr := "" },
          Result.ok) ∧
      lineCount (processWorkflowFile newlineNameWorld "/r/ci.yml" emptyStreams).1.stdout = 3 ∧
      ¬ (lineCount (processWorkflowFile newlineNameWorld "/r/ci.yml" emptyStreams).1.stdout =
          2 + 3 * ([] : List (String × String)).length -
            namelessCount ([] : List (String × String))) := by
  decide

theorem printJobs_frame (es : List (String × Option jobConfig)) :
    ∃ (x : String) (r : Result), ∀ s : Streams,
      printJobs es s = ({ stdout := s.stdout ++ x, stderr := s.stderr }, r) := by
  induction es with
  | nil => exact ⟨"", Result.ok, fun s => by simp [printJobs]⟩
  | cons e rest ih =>
    obtain ⟨k, jc⟩ := e
    obtain ⟨x, r, hx⟩ := ih
    cases jc with
    | none => exact ⟨"Job ID: " ++ k ++ "\n", Result.fault, fun s => by simp [printJobs]⟩
    | some c =>
      by_cases hn : c.Name = ""
      · refine ⟨"Job ID: " ++ k ++ "\n" ++ "\n" ++ x, r, fun s => ?_⟩
        simp [printJobs, hn, hx, String.append_assoc]
      · refine ⟨"Job ID: " ++ k ++ "\n" ++ ("Job Name: " ++ c.Name ++ "\n") ++ "\n" ++ x, r,
          fun s => ?_⟩
        simp [printJobs, hn, hx, String.append_assoc]

theorem processWorkflowFile_frame (w : World) (file : String) (s : Streams) :
    processWorkflowFile w file s =
      ({ stdout := s.stdout ++ fileOutput w file, stderr := s.stderr }, fileResult w file) := by
  have hex : ∃ (x : String) (r : Result), ∀ s : Streams,
      processWorkflowFile w file s = ({ stdout := s.stdout ++ x, stderr := s.stderr }, r) := by
    unfold processWorkflowFile
    cases hr : w.ReadFile file with
    | error e => exact ⟨"", Result.err ("failed to read file: " ++ e), fun s => by simp⟩
    | ok data =>
      cases hu : w.Unmarshal data with
      | error e =>
        exact ⟨"", Result.err ("failed to parse YAML: " ++ e), fun s => by simp [hu]⟩
      | ok wf =>
        obtain ⟨x, r, hx⟩ := printJobs_frame (w.mapRange file wf.Jobs)
        refine ⟨"File: " ++ file ++ "\n" ++ ("Workflow: " ++ wf.Name ++ "\n") ++ x, r,
          fun s => ?_⟩
        simp [hu, hx, String.append_assoc]
  obtain ⟨x, r, hx⟩ := hex
  have h0 := hx emptyStreams
  have hout : fileOutput w file = x := by
    unfold fileOutput
    rw [h0]
    simp [emptyStreams]
  have hres : fileResult w file = r := by
    simp [fileResult, h0]
  rw [hout, hres]
  exact hx s

theorem processFiles_noFault (w : World) (files : List String) (s : Streams)
    (h : ∀ f ∈ files, fileResult w f ≠ Result.fault) :
    processFiles w files s =
      ({ stdout := s.stdout ++ fileSections w files, stderr := s.stderr ++ warnings w files },
        Result.ok) := by
  induction files generalizing s with
  | nil => simp [processFiles, fileSections, warnings]
  | cons f rest ih =>
    have hrest : ∀ g ∈ rest, fileResult w g ≠ Result.fault :=
      fun g hg => h g (List.mem_cons_of_mem _ hg)
    have hf := h f (List.mem_cons_self _ _)
    simp only [processFiles, processWorkflowFile_frame w f, fileSections, warnings, warningText]
    cases hr : fileResult w f with
    | ok => simp [ih _ hrest, String.append_assoc]
    | err e => simp [ih _ hrest, String.append_assoc]
    | fault => exact absurd hr hf

theorem lineCount_warnings (w : World) (files : List String)
    (h : ∀ f ∈ files, ∀ cause, fileResult w f = Result.err cause →
      SingleLine f ∧ SingleLine cause) :
    lineCount (warnings w files) = failingCount w files := by
  induction files with
  | nil => rfl
  | cons f rest ih =>
    have hrest := ih (fun g hg => h g (List.mem_cons_of_mem _ hg))
    have hf := h f (List.mem_cons_self _ _)
    have h1 : lineCount "warning: error processing " = 0 := by decide
    have h2 : lineCount ": " = 0 := by decide
    have h3 : lineCount "\n" = 1 := by decide
    have h4 : lineCount "" = 0 := by decide
    unfold failingCount at hrest ⊢
    simp only [warnings, warningText, lineCount_append, List.filter_cons, hrest]
    cases hr : fileResult w f with
    | ok => simp [Result.isErr, h4]
    | fault => simp [Result.isErr, h4]
    | err e =>
      obtain ⟨hsf, hse⟩ := hf e hr
      simp only [lineCount_append, h1, h2, h3, lineCount_singleLine f hsf,
        lineCount_singleLine e hse, Result.isErr, if_true, List.length_cons]
      omega

theorem fileOutput_of_fails (w : World) (f : String) (h : FileFails w f) :
    fileOutput w f = "" := by
  have herr := (processWorkflowFile_err_iff w f emptyStreams).mpr h
  unfold fileOutput
  rw [processWorkflowFile_err_streams w f emptyStreams herr]
  rfl

theorem fileOutput_named (w : World) (f data : String) (wf : workflowFile)
    (jobs : List (String × String))
    (hr : w.ReadFile f = .ok data) (hu : w.Unmarshal data = .ok wf)
    (hjobs : w.mapRange f wf.Jobs = jobs.map namedEntry) :
    fileOutput w f = reportText f wf.Name jobs ∧ fileResult w f = Result.ok := by
  unfold fileOutput fileResult
  rw [processWorkflowFile_named w f emptyStreams data wf jobs hr hu hjobs]
  simp [emptyStreams]

theorem run_directory_noFault (w : World) (s : Streams) (path : String)
    (hargs : 2 ≤ w.Args.length) (hR : Resolved w (w.Args.getD 1 "") path)
    (hst : w.Stat path = .ok true) (hwalk : ∀ v ∈ w.Walk path, v.2 = none)
    (hne : (findWorkflowFiles w path).1 ≠ [])
    (hnf : ∀ f ∈ (findWorkflowFiles w path).1, fileResult w f ≠ Result.fault) :
    run w s =
      ({ stdout := s.stdout ++ fileSections w (findWorkflowFiles w path).1,
         stderr := s.stderr ++ warnings w (findWorkflowFiles w path).1 }, Result.ok) := by
  have hres := (resolvePath_ok_iff w _ path).mpr hR
  rw [findWorkflowFiles_walked w path hwalk] at hne hnf ⊢
  rw [run_dir w s path hargs hres hst hwalk hne, processFiles_noFault w _ s hnf]

theorem fileFails_iff_cause (w : World) (f : String) :
    FileFails w f ↔ ∃ cause, failureCause w f = some cause := by
  unfold failureCause FileFails
  cases hr : w.ReadFile f with
  | error e => simp
  | ok data =>
    cases hu : w.Unmarshal data with
    | error e => simp [hu]
    | ok wf => simp [hu]

theorem fileResult_of_cause (w : World) (f cause : String)
    (h : failureCause w f = some cause) : fileResult w f = Result.err cause := by
  unfold failureCause at h
  unfold fileResult processWorkflowFile
  cases hr : w.ReadFile f with
  | error e =>
    rw [hr] at h
    simp only [Option.some.injEq] at h
    simp [h]
  | ok data =>
    rw [hr] at h
    dsimp only at h ⊢
    cases hu : w.Unmarshal data with
    | error e =>
      rw [hu] at h
      simp only [Option.some.injEq] at h
      simp [h]
    | ok wf =>
      rw [hu] at h
      cases h

theorem fileResult_of_noCause (w : World) (f : String)
    (h : failureCause w f = none) : (fileResult w f).isErr = false := by
  have hnot : ¬ FileFails w f := by
    rw [fileFails_iff_cause]
    rintro ⟨cause, hc⟩
    rw [h] at hc
    cases hc
  have hiff := processWorkflowFile_err_iff w f emptyStreams
  unfold fileResult
  cases hb : (processWorkflowFile w f emptyStreams).2.isErr with
  | false => rfl
  | true => exact absurd (hiff.mp hb) hnot

theorem warningText_eq (w : World) (f : String) :
    warningText w f = expectedWarning w f := by
  unfold warningText expectedWarning
  cases hc : failureCause w f with
  | some cause => simp [fileResult_of_cause w f cause hc]
  | none =>
    have hne := fileResult_of_noCause w f hc
    cases hr : fileResult w f with
    | ok => rfl
    | fault => rfl
    | err e =>
      rw [hr] at hne
      cases hne

theorem warnings_eq (w : World) (files : List String) :
    warnings w files = expectedWarnings w files := by
  induction files with
  | nil => rfl
  | cons f rest ih => simp [warnings, expectedWarnings, warningText_eq, ih]

theorem lineCount_expectedWarnings (w : World) (files : List String)
    (h : ∀ f ∈ files, ∀ cause, failureCause w f = some cause →
      SingleLine f ∧ SingleLine cause) :
    lineCount (expectedWarnings w files) = (failingFiles w files).length := by
  induction files with
  | nil => rfl
  | cons f rest ih =>
    have hrest := ih (fun g hg => h g (List.mem_cons_of_mem _ hg))
    have hf := h f (List.mem_cons_self _ _)
    have h1 : lineCount "warning: error processing " = 0 := by decide
    have h2 : lineCount ": " = 0 := by decide
    have h3 : lineCount "\n" = 1 := by decide
    have h4 : lineCount "" = 0 := by decide
    unfold failingFiles at hrest ⊢
    simp only [expectedWarnings, expectedWarning, lineCount_append, List.filter_cons, hrest]
    cases hc : failureCause w f with
    | none =>
      have hnot : ¬ FileFails w f := by
        rw [fileFails_iff_cause]
        rintro ⟨cause, hc2⟩
        rw [hc] at hc2
        cases hc2
      simp [hnot, h4]
    | some cause =>
      have hyes : FileFails w f := (fileFails_iff_cause w f).mpr ⟨cause, hc⟩
      obtain ⟨hsf, hsc⟩ := hf cause hc
      simp only [lineCount_append, h1, h2, h3, lineCount_singleLine f hsf,
        lineCount_singleLine cause hsc, hyes, decide_True, if_true, List.length_cons]
      omega

/-- C8 (amended): in directory mode, when the walk completes and no candidate
faults, `run` appends to standard error exactly the warnings of the
candidates that cannot be read or decoded, in locator order and nothing
else: for such a candidate the text
`warning: error processing <path>: <cause>` and a line break, where
`<cause>` is the error `processWorkflowFile` returns for the path
(`failed to read file: ...` or `failed to parse YAML: ...`); a candidate
that is read and decoded contributes nothing and gets no error from
`processWorkflowFile`; and when neither the failing paths nor their causes
contain a line break, standard error receives exactly one line per failing
candidate. -/
theorem run_warnings (w : World) (s : Streams) (path : String)
    (hargs : 2 ≤ w.Args.length) (hR : Resolved w (w.Args.getD 1 "") path)
    (hst : w.Stat path = .ok true) (hwalk : ∀ v ∈ w.Walk path, v.2 = none)
    (hnf : ∀ f ∈ (findWorkflowFiles w path).1, fileResult w f ≠ Result.fault) :
    (run w s).1.stderr = s.stderr ++ expectedWarnings w (findWorkflowFiles w path).1 ∧
      (∀ f, FileFails w f → ∃ cause, fileResult w f = Result.err cause ∧
        expectedWarning w f = "warning: error processing " ++ f ++ ": " ++ cause ++ "\n") ∧
      (∀ f e, w.ReadFile f = .error e →
        fileResult w f = Result.err ("failed to read file: " ++ e)) ∧
      (∀ f data e, w.ReadFile f = .ok data → w.Unmarshal data = .error e →
        fileResult w f = Result.err ("failed to parse YAML: " ++ e)) ∧
      (∀ f, ¬ FileFails w f → expectedWarning w f = "" ∧ (fileResult w f).isErr = false) ∧
      ((∀ f ∈ (findWorkflowFiles w path).1, ∀ cause, failureCause w f = some cause →
          SingleLine f ∧ SingleLine cause) →
        lineCount (expectedWarnings w (findWorkflowFiles w path).1) =
          (failingFiles w (findWorkflowFiles w path).1).length) := by
  have hres := (resolvePath_ok_iff w _ path).mpr hR
  refine ⟨?_, ?_, ?_, ?_, ?_, fun h => lineCount_expectedWarnings w _ h⟩
  · rw [← warnings_eq]
    by_cases hnil : (visitedPaths w path).filter isWorkflowPath = []
    · have herr : (run w s).2.isErr = true := by
        rw [run_dir_isErr_iff w s path hargs hres hst]
        right
        intro p hp hc
        exact (List.filter_eq_nil_iff.mp hnil) p hp ((isWorkflowPath_iff p).mpr hc)
      rw [run_err_streams w s herr, findWorkflowFiles_walked w path hwalk, hnil]
      simp [warnings]
    · rw [findWorkflowFiles_walked w path hwalk] at hnf ⊢
      rw [run_dir w s path hargs hres hst hwalk hnil, processFiles_noFault w _ s hnf]
  · intro f hf
    obtain ⟨cause, hc⟩ := (fileFails_iff_cause w f).mp hf
    exact ⟨cause, fileResult_of_cause w f cause hc, by simp [expectedWarning, hc]⟩
  · intro f e hr
    apply fileResult_of_cause
    simp [failureCause, hr]
  · intro f data e hr hu
    apply fileResult_of_cause
    simp [failureCause, hr, hu]
  · intro f hf
    have hc : failureCause w f = none := by
      cases hc : failureCause w f with
      | none => rfl
      | some cause => exact absurd ((fileFails_iff_cause w f).mpr ⟨cause, hc⟩) hf
    exact ⟨by simp [expectedWarning, hc], fileResult_of_noCause w f hc⟩

/-- Witness for C8 (amended): `mixedWorld` is started in `/` with the argument
`r`; the first candidate cannot be read, the second is reported, the third
fails to decode; standard error receives the two warnings, two lines. -/
theorem run_warnings_witness :
    (run mixedWorld emptyStreams).1.stderr =
        "warning: error processing /r/.github/workflows/a.yml: failed to read file: " ++
        "open /r/.github/workflows/a.yml: permission denied\n" ++
        "warning: error processing /r/.github/workflows/c.yml: failed to parse YAML: " ++
        "yaml: line 1: did not find expected node content\n" ∧
      failingFiles mixedWorld (findWorkflowFiles mixedWorld "/r").1 =
        ["/r/.github/workflows/a.yml", "/r/.github/workflows/c.yml"] ∧
      lineCount (expectedWarnings mixedWorld (findWorkflowFiles mixedWorld "/r").1) = 2 := by
  have h := run_warnings mixedWorld emptyStreams "/r" (by decide)
    (Or.inr ⟨by decide, "/", rfl, by decide⟩) (by decide) (by decide) (by decide)
  have hfiles : (findWorkflowFiles mixedWorld "/r").1 =
      ["/r/.github/workflows/a.yml", "/r/.github/workflows/b.yaml",
       "/r/.github/workflows/c.yml"] := by decide
  have hsl : ∀ f ∈ (findWorkflowFiles mixedWorld "/r").1, ∀ cause,
      failureCause mixedWorld f = some cause → SingleLine f ∧ SingleLine cause := by
    intro f hf cause hc
    rw [hfiles] at hf
    simp only [List.mem_cons, List.mem_singleton, List.not_mem_nil, or_false] at hf
    rcases hf with rfl | rfl | rfl
    · have h1 : failureCause mixedWorld "/r/.github/workflows/a.yml" =
          some ("failed to read file: " ++
            "open /r/.github/workflows/a.yml: permission denied") := by decide
      rw [h1] at hc
      injection hc with hc
      subst hc
      exact ⟨by decide, by decide⟩
    · have h1 : failureCause mixedWorld "/r/.github/workflows/b.yaml" = none := by decide
      rw [h1] at hc
      cases hc
    · have h1 : failureCause mixedWorld "/r/.github/workflows/c.yml" =
          some ("failed to parse YAML: " ++
            "yaml: line 1: did not find expected node content") := by decide
      rw [h1] at hc
      injection hc with hc
      subst hc
      exact ⟨by decide, by decide⟩
  refine ⟨by rw [h.1]; decide, by decide, ?_⟩
  rw [h.2.2.2.2.2 hsl]
  decide

/-- C8 fails as stated: in `typeErrorWorld` one candidate fails to decode, and
standard error receives two lines for it, the decoder's message having two
lines. -/
theorem run_warnings_counterexample :
    findWorkflowFiles typeErrorWorld "/r" = (["/r/.github/workflows/a.yml"], none) ∧
      fileResult typeErrorWorld "/r/.github/workflows/a.yml" =
        Result.err ("failed to parse YAML: yaml: unmarshal errors:\n" ++
          "  line 1: cannot unmarshal !!seq into string") ∧
      run typeErrorWorld emptyStreams =
        ({ stdout := "----------------------------------------\n",
           stderr := "warning: error processing /r/.github/workflows/a.yml: " ++
             "failed to parse YAML: yaml: unmarshal errors:\n" ++
             "  line 1: cannot unmarshal !!seq into string\n" }, Result.ok) ∧
      failingCount typeErrorWorld (findWorkflowFiles typeErrorWorld "/r").1 = 1 ∧
      lineCount (run typeErrorWorld emptyStreams).1.stderr = 2 ∧
      ¬ (lineCount (run typeErrorWorld emptyStreams).1.stderr =
          failingCount typeErrorWorld (findWorkflowFiles typeErrorWorld "/r").1) ∧
      failingFiles typeErrorWorld (findWorkflowFiles typeErrorWorld "/r").1 =
        ["/r/.github/workflows/a.yml"] ∧
      ¬ (lineCount (run typeErrorWorld emptyStreams).1.stderr =
          (failingFiles typeErrorWorld (findWorkflowFiles typeErrorWorld "/r").1).length) := by
  decide

/-- C1 fails on the code: the file of `nilJobWorld` is read and decoded, its
only job `build` has no name; `processWorkflowFile` writes the lines
`File:`, `Workflow:` and `Job ID: build` and then faults on the nil job,
where the claim has it write the full report and return nil. -/
theorem processWorkflowFile_nil_job_faults :
    nilJobWorld.ReadFile "/r/ci.yml" = .ok "jobs:\n  build:\n" ∧
      nilJobWorld.Unmarshal "jobs:\n  build:\n" = .ok { Name := "", Jobs := [("build", none)] } ∧
      processWorkflowFile nilJobWorld "/r/ci.yml" emptyStreams =
        ({ stdout := "File: /r/ci.yml\nWorkflow: \nJob ID: build\n", stderr := "" },
          Result.fault) ∧
      reportText "/r/ci.yml" "" [("build", "")] =
        "File: /r/ci.yml\nWorkflow: \nJob ID: build\n\n" ∧
      processWorkflowFile nilJobWorld "/r/ci.yml" emptyStreams ≠
        ({ stdout := reportText "/r/ci.yml" "" [("build", "")], stderr := "" }, Result.ok) := by
  decide

/-- C10 fails on the code: in `nilSecondJobWorld` the document decodes, the job
`build` is mapped to the nil pointer, and `run` faults when it reads the
name of that job, after the line `Job ID: build` and before the empty
line. -/
theorem run_nil_job_faults :
    nilSecondJobWorld.Unmarshal "name: CI\njobs:\n  lint:\n    name: Lint\n  build:\n" =
        .ok { Name := "CI", Jobs := [("lint", some { Name := "Lint" }), ("build", none)] } ∧
      run nilSecondJobWorld emptyStreams =
        ({ stdout := "File: /r/ci.yml\nWorkflow: CI\nJob ID: lint\nJob Name: Lint\n\n" ++
             "Job ID: build\n", stderr := "" }, Result.fault) ∧
      (run nilSecondJobWorld emptyStreams).2 ≠ Result.ok ∧
      (run nilSecondJobWorld emptyStreams).1.stdout ≠
        reportText "/r/ci.yml" "CI" [("lint", "Lint"), ("build", "")] := by
  decide

/-- C4 fails on the code: in `nilJobDirWorld` the locator returns `a.yml` and
`b.yaml`, both are read and decoded; `run` faults in the report of `a.yml`
(its job is nil), so the separator and the report of `b.yaml` are never
written. -/
theorem run_directory_nil_job_faults :
    findWorkflowFiles nilJobDirWorld "/r" =
        (["/r/.github/workflows/a.yml", "/r/.github/workflows/b.yaml"], none) ∧
      fileResult nilJobDirWorld "/r/.github/workflows/b.yaml" = Result.ok ∧
      run nilJobDirWorld emptyStreams =
        ({ stdout := "----------------------------------------\n" ++
             "File: /r/.github/workflows/a.yml\nWorkflow: \nJob ID: build\n",
           stderr := "" }, Result.fault) ∧
      Contains (run nilJobDirWorld emptyStreams).1.stdout
        "File: /r/.github/workflows/b.yaml" = false ∧
      (run nilJobDirWorld emptyStreams).1.stdout ≠
        separator ++ "\n" ++ reportText "/r/.github/workflows/a.yml" "" [("build", "")] ++
          (separator ++ "\n" ++ reportText "/r/.github/workflows/b.yaml" "Test Workflow"
            [("build", "Build Job"), ("test", "")]) := by
  decide

/-- C6 fails on the code: the jobs of the document of `TestParseWorkflowFile`
are kept in a Go map, and when `range` visits `test` before `build` (a
permutation of the entries) the block of `test` is written first; a run in
which `range` visits `build` first writes the other order. -/
theorem report_order_follows_map_iteration :
    (testWorld List.reverse).Unmarshal testDocument = .ok testWorkflow ∧
      List.Perm (List.reverse testWorkflow.Jobs) testWorkflow.Jobs ∧
      run (testWorld List.reverse) emptyStreams =
        ({ stdout := "File: /tmp/workflow.yml\nWorkflow: Test Workflow\n" ++
             "Job ID: test\n\nJob ID: build\nJob Name: Build Job\n\n", stderr := "" },
          Result.ok) ∧
      run (testWorld id) emptyStreams =
        ({ stdout := "File: /tmp/workflow.yml\nWorkflow: Test Workflow\n" ++
             "Job ID: build\nJob Name: Build Job\n\nJob ID: test\n\n", stderr := "" },
          Result.ok) ∧
      run (testWorld List.reverse) emptyStreams ≠ run (testWorld id) emptyStreams :=
  ⟨by decide, List.reverse_perm _, by decide, by decide, by decide⟩

/-- C9 fails on the code: in `segmentWorld` the locator returns
`/r/x.github/workflows-old/a.yml`, a path with no component `.github`
followed by a component `workflows`, and `run` reports the file. -/
theorem findWorkflowFiles_substring_match :
    findWorkflowFiles segmentWorld "/r" = (["/r/x.github/workflows-old/a.yml"], none) ∧
      ¬ InWorkflowsDirectory "/r/x.github/workflows-old/a.yml" ∧
      InWorkflowsDirectory "/r/.github/workflows/a.yml" ∧
      run segmentWorld emptyStreams =
        ({ stdout := "----------------------------------------\n" ++
             "File: /r/x.github/workflows-old/a.yml\nWorkflow: Old\n", stderr := "" },
          Result.ok) := by
  decide

/-- C3 fails on the code: in `nilJobWorld` (a single file that is read and
decoded) and in `nilJobDirWorld` (a directory with a completed walk and two
candidates, both read and decoded) none of the listed conditions holds, yet
`run` does not return success: it faults on the nil job, and the process
exits with a non-zero status. -/
theorem run_fault_outside_error_conditions :
    ¬ RunErrorCondition nilJobWorld ∧
      (run nilJobWorld emptyStreams).2 = Result.fault ∧
      exitStatus (run nilJobWorld emptyStreams).2 ≠ 0 ∧
      ¬ RunErrorCondition nilJobDirWorld ∧
      nilJobDirWorld.Stat "/r" = .ok true ∧
      (∀ v ∈ nilJobDirWorld.Walk "/r", v.2 = none) ∧
      (findWorkflowFiles nilJobDirWorld "/r").1 ≠ [] ∧
      (∀ f ∈ (findWorkflowFiles nilJobDirWorld "/r").1, ¬ FileFails nilJobDirWorld f) ∧
      (run nilJobDirWorld emptyStreams).2 ≠ Result.ok ∧
      exitStatus (run nilJobDirWorld emptyStreams).2 ≠ 0 := by
  refine ⟨?_, by decide, by decide, ?_, by decide, by decide, by decide, by decide,
    by decide, by decide⟩
  · intro h
    have herr := (run_isErr_iff nilJobWorld emptyStreams).mpr h
    revert herr
    decide
  · intro h
    have herr := (run_isErr_iff nilJobDirWorld emptyStreams).mpr h
    revert herr
    decide

end DetectGhaJobs
